import Mathlib

/-!
Verification of the room/session state machine of `src/server.js` (a
multiplayer card-reveal game server).  The JavaScript `CardGame` class and the
WebSocket message handlers are shallowly embedded: JS `Map`s (which preserve
insertion order) become association lists, JS `Set`s become duplicate-free
lists, the nullable `cards` field becomes `Option (List Nat)` (`none` models
JS `null`, `some []` models an empty array), connection handles become `Nat`
identifiers, and the outbound `ws.send` calls become explicit message lists.
The nondeterministic shuffle `[...this.cards].sort(() => Math.random() - 0.5)`
is modelled by passing the resulting permutation of the deck as an argument.
The one-shot `setTimeout` grace timers armed in `handleDisconnect` are
modelled by an explicit queue `pendingTimers` of (identity, due-instant)
pairs; firing a timer runs the callback body exactly as written in the
source.
-/

namespace Seotda

abbrev PlayerId := String
abbrev ConnId := Nat

/-! ### Association-list embedding of JS `Map` (insertion-ordered) -/

/-- JS `Map.get`: the value at the first entry with the given key. -/
def aget {β : Type} : List (PlayerId × β) → PlayerId → Option β
  | [], _ => none
  | (k, v) :: rest, key => if k = key then some v else aget rest key

/-- JS `Map.set`: replace the value in place if the key is present, else append. -/
def aset {β : Type} : List (PlayerId × β) → PlayerId → β → List (PlayerId × β)
  | [], key, v => [(key, v)]
  | (k, w) :: rest, key, v =>
      if k = key then (key, v) :: rest else (k, w) :: aset rest key v

/-- JS `Map.delete`: remove the (unique) entry with the given key. -/
def adel {β : Type} : List (PlayerId × β) → PlayerId → List (PlayerId × β)
  | [], _ => []
  | (k, w) :: rest, key => if k = key then rest else (k, w) :: adel rest key

/-- JS `Map.has`. -/
def ahas {β : Type} (m : List (PlayerId × β)) (key : PlayerId) : Bool :=
  (aget m key).isSome

/-- JS `Map.keys` in insertion order. -/
def akeys {β : Type} (m : List (PlayerId × β)) : List PlayerId :=
  m.map Prod.fst

/-! ### JS `Set` as a duplicate-free list -/

/-- JS `Set.has`. -/
def smem (s : List PlayerId) (x : PlayerId) : Bool :=
  s.any fun y => decide (y = x)

/-- JS `Set.add`: append only if absent. -/
def sadd (s : List PlayerId) (x : PlayerId) : List PlayerId :=
  if smem s x then s else s ++ [x]

/-! ### Lemmas about the map operations -/

theorem aget_aset_self {β : Type} (m : List (PlayerId × β)) (k : PlayerId) (v : β) :
    aget (aset m k v) k = some v := by
  induction m with
  | nil => simp [aget, aset]
  | cons p rest ih =>
      obtain ⟨k1, v1⟩ := p
      by_cases h : k1 = k
      · simp [aget, aset, h]
      · simp [aget, aset, h, ih]

theorem aget_aset_of_ne {β : Type} (m : List (PlayerId × β)) {k k' : PlayerId} (v : β)
    (h : k' ≠ k) : aget (aset m k v) k' = aget m k' := by
  induction m with
  | nil => simp [aget, aset, Ne.symm h]
  | cons p rest ih =>
      obtain ⟨k1, v1⟩ := p
      by_cases h1 : k1 = k <;> by_cases h2 : k1 = k' <;>
        simp_all [aget, aset]

theorem aget_adel_of_ne {β : Type} (m : List (PlayerId × β)) {k k' : PlayerId}
    (h : k' ≠ k) : aget (adel m k) k' = aget m k' := by
  induction m with
  | nil => simp [adel]
  | cons p rest ih =>
      obtain ⟨k1, v1⟩ := p
      by_cases h1 : k1 = k <;> by_cases h2 : k1 = k' <;>
        simp_all [aget, adel]

theorem akeys_aset {β : Type} (m : List (PlayerId × β)) (k : PlayerId) (v : β) :
    akeys (aset m k v) = if ahas m k then akeys m else akeys m ++ [k] := by
  induction m with
  | nil => simp [akeys, aset, ahas, aget]
  | cons p rest ih =>
      obtain ⟨k1, v1⟩ := p
      by_cases h : k1 = k
      · simp [akeys, aset, ahas, aget, h]
      · simp only [aset, if_neg h, akeys, List.map_cons, ahas, aget, if_neg h]
        simp only [akeys, ahas] at ih
        rw [ih]
        by_cases h2 : (aget rest k).isSome <;> simp [h2]

theorem akeys_adel {β : Type} (m : List (PlayerId × β)) (k : PlayerId) :
    akeys (adel m k) = (akeys m).erase k := by
  induction m with
  | nil => simp [akeys, adel]
  | cons p rest ih =>
      obtain ⟨k1, v1⟩ := p
      by_cases h : k1 = k
      · subst h
        simp [akeys, adel, List.erase_cons]
      · simp only [akeys, adel, if_neg h, List.map_cons, List.erase_cons]
        simp only [akeys] at ih
        simp [beq_iff_eq, h, ih]

theorem ahas_iff_mem_akeys {β : Type} (m : List (PlayerId × β)) (k : PlayerId) :
    ahas m k = true ↔ k ∈ akeys m := by
  induction m with
  | nil => simp [ahas, aget, akeys]
  | cons p rest ih =>
      obtain ⟨k1, v1⟩ := p
      by_cases h : k1 = k
      · simp [ahas, aget, akeys, h]
      · simp only [ahas, aget, if_neg h, akeys, List.map_cons, List.mem_cons]
        simp only [ahas, akeys] at ih
        rw [ih]
        constructor
        · exact fun hh => Or.inr hh
        · rintro (hh | hh)
          · exact absurd hh.symm h
          · exact hh

theorem aget_adel_self {β : Type} (m : List (PlayerId × β)) (k : PlayerId)
    (hnd : (akeys m).Nodup) : aget (adel m k) k = none := by
  induction m with
  | nil => simp [adel, aget]
  | cons p rest ih =>
      obtain ⟨k1, v1⟩ := p
      simp only [akeys, List.map_cons, List.nodup_cons] at hnd
      by_cases h : k1 = k
      · subst h
        simp only [adel, if_pos rfl]
        cases hh : aget rest k1 with
        | none => exact hh
        | some v =>
            exfalso
            have : k1 ∈ akeys rest := by
              rw [← ahas_iff_mem_akeys]
              simp [ahas, hh]
            exact hnd.1 this
      · simp [adel, aget, h, ih hnd.2]

theorem length_aset_of_ahas {β : Type} (m : List (PlayerId × β)) (k : PlayerId) (v : β)
    (h : ahas m k = true) : (aset m k v).length = m.length := by
  induction m with
  | nil => simp [ahas, aget] at h
  | cons p rest ih =>
      obtain ⟨k1, v1⟩ := p
      by_cases h1 : k1 = k
      · simp [aset, h1]
      · simp only [ahas, aget, if_neg h1] at h
        simp [aset, h1, ih h]

theorem aset_self {β : Type} (m : List (PlayerId × β)) (k : PlayerId) (v : β)
    (h : aget m k = some v) : aset m k v = m := by
  induction m with
  | nil => simp [aget] at h
  | cons p rest ih =>
      obtain ⟨k1, v1⟩ := p
      by_cases h1 : k1 = k
      · subst h1
        simp [aget] at h
        subst h
        simp [aset]
      · simp only [aget, if_neg h1] at h
        simp [aset, h1, ih h]

/-! ### Data model (mirrors the `CardGame` class state of `src/server.js`) -/

/-- An entry of `this.players`: `{ ws, name, cards }`.  `cards` is `none` for
JS `null` and `some l` for a JS array `l`. -/
structure PlayerInfo where
  ws : ConnId
  name : String
  cards : Option (List Nat)
deriving DecidableEq

/-- An entry of `this.disconnectedPlayers`:
`{ ...playerInfo, disconnectedAt: Date.now(), cards: playerInfo.cards }`. -/
structure DiscInfo where
  ws : ConnId
  name : String
  cards : Option (List Nat)
  disconnectedAt : Nat
deriving DecidableEq

/-- One element of the `players` array inside a `gameState` message. -/
structure PlayerSnapshot where
  id : PlayerId
  name : String
  hasCards : Bool
  isHost : Bool
  isFirstGame : Bool
  isDied : Bool
  cards : Option (List Nat)
deriving DecidableEq

/-- The recipient-independent part of a `gameState` message. -/
structure GameStatePayload where
  roomCode : String
  totalPlayers : Nat
  gameStarted : Bool
  players : List PlayerSnapshot
deriving DecidableEq

/-- Outbound messages produced by the server (`ws.send` payloads).  The
`gameState` constructor carries the shared payload plus the three
per-recipient personalized fields spread over it. -/
inductive Msg where
  | cards (cards : List Nat)
  | gameState (payload : GameStatePayload) (isHost : Bool) (isFirstGame : Bool) (isDied : Bool)
  | roomCreated (roomCode : String) (playerId : PlayerId) (isHost : Bool)
  | joinResponse (roomCode : String) (playerId : PlayerId) (isHost : Bool) (rejoined : Bool)
  | error (message : String)
  | leftRoom
deriving DecidableEq

/-- The full mutable state of one `CardGame` instance, plus `pendingTimers`,
which models the runtime's queue of one-shot `setTimeout` callbacks armed by
`handleDisconnect` (each entry is the captured identity plus the instant the
timer is due to fire). -/
structure CardGame where
  roomCode : String
  players : List (PlayerId × PlayerInfo)
  gameStarted : Bool
  hostId : Option PlayerId
  firstGamePlayers : List PlayerId
  diedPlayers : List PlayerId
  disconnectedPlayers : List (PlayerId × DiscInfo)
  pendingTimers : List (PlayerId × Nat)
deriving DecidableEq

/-- The source's `this.MAX_PLAYERS`. -/
def MAX_PLAYERS : Nat := 10

/-- The source's `this.CARDS_PER_PLAYER`. -/
def CARDS_PER_PLAYER : Nat := 2

/-- The source's `this.reconnectTimeout` (5 minutes in milliseconds). -/
def reconnectTimeout : Nat := 300000

/-- The source's `this.cards`, the fixed 20-value deck. -/
def deckCards : List Nat :=
  [1, 2, 3, 4, 5, 6, 7, 8, 9, 10, 100, 200, 300, 400, 500, 600, 700, 800, 900, 1000]

/-! ### Error message strings (verbatim from the source) -/

def errPlayerNotFound : String := "플레이어를 찾을 수 없습니다."

def errNotHostStart : String := "방장만 게임을 시작할 수 있습니다."

def errNeedTwoPlayers : String := "게임을 시작하기 위해서는 최소 2명의 플레이어가 필요합니다."

def errAlreadyStarted : String := "게임이 이미 시작되었습니다."

def errNotHostEnd : String := "방장만 게임을 종료할 수 있습니다."

def errRoomNotFound : String := "존재하지 않는 방 코드입니다."

def errNameTaken : String := "이미 사용 중인 닉네임입니다."

def errGameInProgress : String := "이미 게임이 시작되었습니다."

def errRoomFull : String := "방이 가득 찼습니다."

/-! ### Operations of the `CardGame` class

Every operation takes `isOpen : ConnId → Bool` modelling which sockets have
`readyState === WebSocket.OPEN`, and returns the new state together with the
list of `(recipient connection, message)` sends it performs, in order. -/

/-- The test `info.cards?.length > 0` (JS optional chaining: `null` gives `false`). -/
def cardsLenPos : Option (List Nat) → Bool
  | some l => decide (0 < l.length)
  | none => false

/-- One element of the `players` array built in `broadcastGameState`. -/
def playerEntry (g : CardGame) (pid : PlayerId) (info : PlayerInfo) : PlayerSnapshot where
  id := pid
  name := info.name
  hasCards := cardsLenPos info.cards
  isHost := decide (g.hostId = some pid)
  isFirstGame := !smem g.firstGamePlayers pid
  isDied := smem g.diedPlayers pid
  cards := info.cards

/-- The shared `gameState` object built once per broadcast. -/
def gamePayload (g : CardGame) : GameStatePayload where
  roomCode := g.roomCode
  totalPlayers := g.players.length
  gameStarted := g.gameStarted
  players := g.players.map fun p => playerEntry g p.1 p.2

/-- The method `CardGame.broadcastGameState`: send the payload to every present player
whose socket is open, with `isHost` / `isFirstGame` / `isDied` personalized
to the recipient. -/
def broadcastGameState (isOpen : ConnId → Bool) (g : CardGame) : List (ConnId × Msg) :=
  g.players.filterMap fun p =>
    if isOpen p.2.ws then
      some (p.2.ws, Msg.gameState (gamePayload g) (decide (g.hostId = some p.1))
        (!smem g.firstGamePlayers p.1) (smem g.diedPlayers p.1))
    else none

/-- The method `CardGame.leaveRoom`.  `now` is `Date.now()`.  Returns the new state and
the JS boolean return value. -/
def leaveRoom (now : Nat) (g : CardGame) (pid : PlayerId) : CardGame × Bool :=
  match aget g.players pid with
  | none => (g, false)
  | some info =>
      let newDisc := aset g.disconnectedPlayers pid ⟨info.ws, info.name, info.cards, now⟩
      let g1 :=
        if g.gameStarted || cardsLenPos info.cards then
          { g with disconnectedPlayers := newDisc }
        else g
      let g2 := { g1 with players := adel g1.players pid }
      let g3 :=
        if g2.hostId = some pid then
          match g2.players.head? with
          | some q => { g2 with hostId := some q.1 }
          | none => g2
        else g2
      (g3, true)

/-- The method `CardGame.handleDisconnect`: move the player into `disconnectedPlayers`,
arm the grace timer, and broadcast. -/
def handleDisconnect (isOpen : ConnId → Bool) (now : Nat) (g : CardGame) (pid : PlayerId) :
    CardGame × List (ConnId × Msg) :=
  match aget g.players pid with
  | none => (g, [])
  | some info =>
      let g1 := { g with
        disconnectedPlayers :=
          aset g.disconnectedPlayers pid ⟨info.ws, info.name, info.cards, now⟩,
        players := adel g.players pid,
        pendingTimers := g.pendingTimers ++ [(pid, now + reconnectTimeout)] }
      (g1, broadcastGameState isOpen g1)

/-- Remove the first occurrence of a pair from the timer queue. -/
def removeTimer : List (PlayerId × Nat) → PlayerId × Nat → List (PlayerId × Nat)
  | [], _ => []
  | t :: rest, x => if t = x then rest else t :: removeTimer rest x

/-- Firing the one-shot `setTimeout` callback armed by `handleDisconnect` for
`pid` with due instant `due`: the timer leaves the queue and the callback body
runs — if the identity is still in `disconnectedPlayers` it is deleted and a
snapshot is broadcast, otherwise nothing happens. -/
def timerFire (isOpen : ConnId → Bool) (g : CardGame) (pid : PlayerId) (due : Nat) :
    CardGame × List (ConnId × Msg) :=
  let g0 := { g with pendingTimers := removeTimer g.pendingTimers (pid, due) }
  if ahas g0.disconnectedPlayers pid then
    let g1 := { g0 with disconnectedPlayers := adel g0.disconnectedPlayers pid }
    (g1, broadcastGameState isOpen g1)
  else (g0, [])

/-- The method `CardGame.handleReconnect`.  The third component is the JS boolean return
value.  Note the source sends the stored hand whenever `gameStarted && cards`
is truthy — a JS array is truthy even when empty, `null` is falsy — and the
`ws.send` here has no `readyState` guard. -/
def handleReconnect (g : CardGame) (pid : PlayerId) (ws : ConnId) (playerName : String) :
    CardGame × List (ConnId × Msg) × Bool :=
  match aget g.disconnectedPlayers pid with
  | none => (g, [], false)
  | some info =>
      let cards := if smem g.diedPlayers pid then none else info.cards
      let g1 := { g with
        players := aset g.players pid ⟨ws, playerName, cards⟩,
        disconnectedPlayers := adel g.disconnectedPlayers pid }
      let msgs :=
        match cards with
        | some l => if g.gameStarted then [(ws, Msg.cards l)] else []
        | none => []
      (g1, msgs, true)

/-- The method `CardGame.playerDie`: mark the player died and null out their hand.  The
middle component is the `error` field of the JS result object. -/
def playerDie (isOpen : ConnId → Bool) (g : CardGame) (pid : PlayerId) :
    CardGame × Option String × List (ConnId × Msg) :=
  match aget g.players pid with
  | none => (g, some errPlayerNotFound, [])
  | some info =>
      let g1 := { g with
        diedPlayers := sadd g.diedPlayers pid,
        players := aset g.players pid { info with cards := none } }
      (g1, none, broadcastGameState isOpen g1)

/-- The per-player loop body of `CardGame.distributeCards`:
`playerInfo.cards = shuffledCards.slice(cardIndex, cardIndex + 2)`,
with `cardIndex` advancing by `CARDS_PER_PLAYER` per present player in
insertion (join) order. -/
def dealHands (shuffled : List Nat) : Nat → List (PlayerId × PlayerInfo) →
    List (PlayerId × PlayerInfo)
  | _, [] => []
  | idx, (pid, info) :: rest =>
      (pid, { info with cards := some ((shuffled.drop idx).take CARDS_PER_PLAYER) }) ::
        dealHands shuffled (idx + CARDS_PER_PLAYER) rest

/-- The private `cards` sends of `distributeCards` (guarded by `readyState`). -/
def dealMsgs (isOpen : ConnId → Bool) (dealt : List (PlayerId × PlayerInfo)) :
    List (ConnId × Msg) :=
  dealt.filterMap fun p =>
    if isOpen p.2.ws then some (p.2.ws, Msg.cards (p.2.cards.getD [])) else none

/-- The method `CardGame.distributeCards`.  `shuffled` is the permutation of the deck
produced by `[...this.cards].sort(() => Math.random() - 0.5)` (a JS sort
always returns a permutation of its input; which one is nondeterministic, so
it is passed as an argument). -/
def distributeCards (isOpen : ConnId → Bool) (shuffled : List Nat) (g : CardGame) :
    CardGame × List (ConnId × Msg) :=
  let dealt := dealHands shuffled 0 g.players
  let g1 := { g with players := dealt }
  (g1, dealMsgs isOpen dealt ++ broadcastGameState isOpen g1)

/-- The method `CardGame.startGame`.  The middle component is the `error` field of the
result object (`none` on success). -/
def startGame (isOpen : ConnId → Bool) (shuffled : List Nat) (g : CardGame) (pid : PlayerId) :
    CardGame × Option String × List (ConnId × Msg) :=
  if g.hostId = some pid then
    if g.players.length < 2 then (g, some errNeedTwoPlayers, [])
    else if g.gameStarted then (g, some errAlreadyStarted, [])
    else
      let r := distributeCards isOpen shuffled { g with gameStarted := true }
      (r.1, none, r.2)
  else (g, some errNotHostStart, [])

/-- The loop `for (let playerId of this.diedPlayers) { players.get(id).cards = null }`
from `endGame`. -/
def clearDiedCards (died : List PlayerId) (ps : List (PlayerId × PlayerInfo)) :
    List (PlayerId × PlayerInfo) :=
  died.foldl
    (fun acc pid =>
      match aget acc pid with
      | some info => aset acc pid { info with cards := none }
      | none => acc)
    ps

/-- The method `CardGame.endGame`: reset the phase, mark everyone as seen-before, null
the hands of died players, broadcast, then clear `diedPlayers`. -/
def endGame (isOpen : ConnId → Bool) (g : CardGame) (pid : PlayerId) :
    CardGame × Option String × List (ConnId × Msg) :=
  if g.hostId = some pid then
    let g1 := { g with gameStarted := false }
    let g2 := { g1 with firstGamePlayers := (akeys g1.players).foldl sadd g1.firstGamePlayers }
    let g3 := { g2 with players := clearDiedCards g2.diedPlayers g2.players }
    let msgs := broadcastGameState isOpen g3
    let g4 := { g3 with diedPlayers := [] }
    (g4, none, msgs)
  else (g, some errNotHostEnd, [])

/-! ### Message handlers (the `wss.on('connection')` dispatch of `src/server.js`)

The process-wide `rooms` map is an association list keyed by room code. -/

abbrev Registry := List (String × CardGame)

/-- The session built by the `createRoom` handler: `new CardGame(roomCode)`
followed by `game.hostId = playerId` and the insertion of the creator with an
empty hand. -/
def initGame (code : String) (pid : PlayerId) (playerName : String) (ws : ConnId) : CardGame :=
  { roomCode := code, players := [(pid, ⟨ws, playerName, some []⟩)], gameStarted := false,
    hostId := some pid, firstGamePlayers := [], diedPlayers := [],
    disconnectedPlayers := [], pendingTimers := [] }

/-- The `createRoom` message handler.  `code` is the value produced by
`generateRoomCode()` (modelled as an argument; the generator guarantees it is
not already a key of `rooms`). -/
def createRoomHandler (isOpen : ConnId → Bool) (rooms : Registry) (code : String)
    (pid : PlayerId) (playerName : String) (ws : ConnId) : Registry × List (ConnId × Msg) :=
  let g := initGame code pid playerName ws
  (aset rooms code g, (ws, Msg.roomCreated code pid true) :: broadcastGameState isOpen g)

/-- The body of the `joinRoom` handler once the room is found: duplicate
nickname check, reconnect attempt, then the fresh-join path. -/
def joinRoomStep (isOpen : ConnId → Bool) (g : CardGame) (code : String) (pid : PlayerId)
    (playerName : String) (ws : ConnId) : CardGame × List (ConnId × Msg) :=
  if (g.players.any fun p => decide (p.2.name = playerName)) && !ahas g.disconnectedPlayers pid then
    (g, [(ws, Msg.error errNameTaken)])
  else
    let r := handleReconnect g pid ws playerName
    if r.2.2 then
      (r.1, r.2.1 ++ (ws, Msg.joinResponse code pid (decide (r.1.hostId = some pid)) true)
        :: broadcastGameState isOpen r.1)
    else if g.gameStarted then (g, [(ws, Msg.error errGameInProgress)])
    else if MAX_PLAYERS ≤ g.players.length then (g, [(ws, Msg.error errRoomFull)])
    else
      let g2 := { g with players := aset g.players pid ⟨ws, playerName, some []⟩ }
      (g2, (ws, Msg.joinResponse code pid (decide (g2.hostId = some pid)) false)
        :: broadcastGameState isOpen g2)

/-- The `joinRoom` message handler. -/
def joinHandler (isOpen : ConnId → Bool) (rooms : Registry) (code : String) (pid : PlayerId)
    (playerName : String) (ws : ConnId) : Registry × List (ConnId × Msg) :=
  match aget rooms code with
  | none => (rooms, [(ws, Msg.error errRoomNotFound)])
  | some g =>
      let r := joinRoomStep isOpen g code pid playerName ws
      (aset rooms code r.1, r.2)

/-- The `start` message handler (silently does nothing when the room code is
unknown; on an error result, sends it to the originating connection only). -/
def startHandler (isOpen : ConnId → Bool) (shuffled : List Nat) (rooms : Registry)
    (code : String) (pid : PlayerId) (ws : ConnId) : Registry × List (ConnId × Msg) :=
  match aget rooms code with
  | none => (rooms, [])
  | some g =>
      let r := startGame isOpen shuffled g pid
      (aset rooms code r.1,
        r.2.2 ++ (match r.2.1 with
          | some e => [(ws, Msg.error e)]
          | none => []))

/-- The `end` message handler. -/
def endHandler (isOpen : ConnId → Bool) (rooms : Registry) (code : String) (pid : PlayerId)
    (ws : ConnId) : Registry × List (ConnId × Msg) :=
  match aget rooms code with
  | none => (rooms, [])
  | some g =>
      let r := endGame isOpen g pid
      (aset rooms code r.1,
        r.2.2 ++ (match r.2.1 with
          | some e => [(ws, Msg.error e)]
          | none => []))

/-- The `die` message handler. -/
def dieHandler (isOpen : ConnId → Bool) (rooms : Registry) (code : String) (pid : PlayerId)
    (ws : ConnId) : Registry × List (ConnId × Msg) :=
  match aget rooms code with
  | none => (rooms, [])
  | some g =>
      let r := playerDie isOpen g pid
      (aset rooms code r.1,
        r.2.2 ++ (match r.2.1 with
          | some e => [(ws, Msg.error e)]
          | none => []))

/-- The `leaveRoom` message handler: leave, destroy the room when both
membership maps are empty (otherwise broadcast), then ack `leftRoom`. -/
def leaveRoomHandler (isOpen : ConnId → Bool) (now : Nat) (rooms : Registry) (code : String)
    (pid : PlayerId) (ws : ConnId) : Registry × List (ConnId × Msg) :=
  match aget rooms code with
  | none => (rooms, [(ws, Msg.leftRoom)])
  | some g =>
      let g1 := (leaveRoom now g pid).1
      if g1.players.length = 0 && g1.disconnectedPlayers.length = 0 then
        (adel rooms code, [(ws, Msg.leftRoom)])
      else
        (aset rooms code g1, broadcastGameState isOpen g1 ++ [(ws, Msg.leftRoom)])

/-- The session-level part of the `ws.on('close')` handler for one room: find
the first present player using the closed socket, run `handleDisconnect`,
then reassign the host to the first remaining player if needed. -/
def closeStep (isOpen : ConnId → Bool) (now : Nat) (g : CardGame) (ws : ConnId) :
    CardGame × List (ConnId × Msg) :=
  match g.players.find? fun p => decide (p.2.ws = ws) with
  | none => (g, [])
  | some q =>
      let r := handleDisconnect isOpen now g q.1
      let g2 :=
        if r.1.hostId = some q.1 then
          match r.1.players.head? with
          | some q2 => { r.1 with hostId := some q2.1 }
          | none => r.1
        else r.1
      (g2, r.2)

/-- The full `ws.on('close')` handler: every room whose player list contains
the closed socket is processed (the `break` in the source only exits the
inner loop), and a room left with both maps empty is dropped from the
registry. -/
def closeHandler (isOpen : ConnId → Bool) (now : Nat) (rooms : Registry) (ws : ConnId) :
    Registry :=
  rooms.filterMap fun rc =>
    match rc.2.players.find? fun p => decide (p.2.ws = ws) with
    | none => some rc
    | some _ =>
        let g2 := (closeStep isOpen now rc.2 ws).1
        if g2.players.length = 0 && g2.disconnectedPlayers.length = 0 then none
        else some (rc.1, g2)

/-- The grace-timer callback at registry level: the `setTimeout` closure
captures the game object and never touches the `rooms` map, so the room is
never destroyed on this path. -/
def expireHandler (isOpen : ConnId → Bool) (rooms : Registry) (code : String) (pid : PlayerId)
    (due : Nat) : Registry :=
  match aget rooms code with
  | none => rooms
  | some g => aset rooms code (timerFire isOpen g pid due).1

/-! ### Session-level operation alphabet and reachability -/

/-- One inbound event routed to a fixed session: a `joinRoom` message (which
covers both fresh joins and reconnects), a `leaveRoom` message, a socket
close, a `start`, `end` or `die` message, or a grace-timer expiry. -/
inductive SOp where
  | join (pid : PlayerId) (playerName : String) (ws : ConnId)
  | leave (now : Nat) (pid : PlayerId)
  | close (now : Nat) (ws : ConnId)
  | start (pid : PlayerId) (shuffled : List Nat)
  | endRound (pid : PlayerId)
  | die (pid : PlayerId)
  | expire (pid : PlayerId) (due : Nat)

/-- The state transition of one session under one event. -/
def step (isOpen : ConnId → Bool) (g : CardGame) : SOp → CardGame
  | .join pid playerName ws => (joinRoomStep isOpen g g.roomCode pid playerName ws).1
  | .leave now pid => (leaveRoom now g pid).1
  | .close now ws => (closeStep isOpen now g ws).1
  | .start pid shuffled => (startGame isOpen shuffled g pid).1
  | .endRound pid => (endGame isOpen g pid).1
  | .die pid => (playerDie isOpen g pid).1
  | .expire pid due => (timerFire isOpen g pid due).1

/-- Run a sequence of events from a state. -/
def run (isOpen : ConnId → Bool) (g : CardGame) (ops : List SOp) : CardGame :=
  ops.foldl (step isOpen) g

/-- An `isOpen` environment in which every socket is open. -/
def allOpen : ConnId → Bool := fun _ => true

/-! ### Concrete traces used as counterexamples -/

/-- Room "1234": Alice creates, Bob joins. -/
def gAliceBob : CardGame :=
  run allOpen (initGame "1234" "A" "Alice" 1) [SOp.join "B" "Bob" 2]

/-- Continuing: Alice starts (with the shuffle that happens to return the deck in
its original order), then Alice and Bob both leave mid-game. -/
def gHostGone : CardGame :=
  run allOpen gAliceBob [SOp.start "A" deckCards, SOp.leave 0 "A", SOp.leave 0 "B"]

/-- Alternatively: Alice starts, then ends the round without anyone dying. -/
def gAfterEnd : CardGame :=
  run allOpen gAliceBob [SOp.start "A" deckCards, SOp.endRound "A"]

/-- Solo room: Alice creates it, her socket closes at instant 0, she rejoins
on a new socket at some instant before 300000, and that socket closes at
instant 200. -/
def gRedisconnected : CardGame :=
  run allOpen (initGame "1234" "A" "Alice" 1)
    [SOp.close 0 1, SOp.join "A" "Alice" 2, SOp.close 200 2]

/-- Registry after: Alice creates room "1234", her socket closes, and the
grace timer armed by that disconnect fires at instant 300000. -/
def regAfterExpiry : Registry :=
  expireHandler allOpen
    (closeHandler allOpen 0 (createRoomHandler allOpen [] "1234" "A" "Alice" 1).1 1)
    "1234" "A" 300000

/-- Observer for C9: the registry still contains `code`, yet that session has
both membership maps empty. -/
def registeredAndEmpty (rooms : Registry) (code : String) : Bool :=
  match aget rooms code with
  | some g => g.players.isEmpty && g.disconnectedPlayers.isEmpty
  | none => false

/-- C1, counterexample.  In the session where Alice (connection 1) hosts Bob
(connection 2) and the round starts, the `gameState` copy delivered to
Alice's connection contains Bob's full hand (`cards := some [3, 4]`) in its
`players` array: a snapshot copy reveals another player's hand, refuting
"the hand of any other player is never included in any message sent to that
recipient". -/
theorem broadcast_leaks_other_hand :
    (1, Msg.gameState
        ⟨"1234", 2, true,
          [⟨"A", "Alice", true, true, true, false, some [1, 2]⟩,
           ⟨"B", "Bob", true, false, true, false, some [3, 4]⟩]⟩
        true true false) ∈ (startGame allOpen deckCards gAliceBob "A").2.2 ∧
    (gamePayload (startGame allOpen deckCards gAliceBob "A").1).players.map
        PlayerSnapshot.cards = [some [1, 2], some [3, 4]] := by
  constructor
  · decide
  · decide

/-- C2, counterexample.  After create(Alice), join(Bob), start, leave(Alice),
leave(Bob), the session still exists (both are preserved in `disconnected`
because the game was active), yet `hostIdentity = "B"` is a key of
`disconnected` and not of `players`, refuting the invariant. -/
theorem hostId_in_disconnected :
    gHostGone.hostId = some "B" ∧ akeys gHostGone.players = [] ∧
      ahas gHostGone.disconnectedPlayers "B" = true := by
  refine ⟨?_, ?_, ?_⟩ <;> decide

/-- C3, counterexample.  After create(Alice), join(Bob), start, end(Alice),
the session is back in the Lobby phase but Alice still holds the two cards
dealt to her — `endGame` clears only died players' hands — refuting "while
phase = Lobby, every hand is empty". -/
theorem lobby_hand_not_empty :
    gAfterEnd.gameStarted = false ∧
      aget gAfterEnd.players "A" = some ⟨1, "Alice", some [1, 2]⟩ := by
  constructor
  · decide
  · decide

/-- C4, counterexample.  Alice disconnects at 0 (timer due 300000), reconnects
at some instant in between, and disconnects again at 200 (timer due 300200).
When the FIRST timer fires at 300000, Alice is again in `disconnected`
(stored by the second disconnect, `disconnectedAt = 200`), so the membership
test passes and the callback evicts her — the state stored by the later
disconnect is destroyed by the earlier timer even though she reconnected in
between, refuting the "never evicts" clause. -/
theorem early_timer_evicts_later_state :
    gRedisconnected.pendingTimers = [("A", 300000), ("A", 300200)] ∧
      aget gRedisconnected.disconnectedPlayers "A" = some ⟨2, "Alice", some [], 200⟩ ∧
      (timerFire allOpen gRedisconnected "A" 300000).1.disconnectedPlayers = [] ∧
      (timerFire allOpen gRedisconnected "A" 300000).1.pendingTimers = [("A", 300200)] := by
  refine ⟨?_, ?_, ?_, ?_⟩ <;> decide

/-- C7.  For a reconnect (the identity is a key of `disconnected`): if the
identity is in `diedThisRound`, the restored hand is the absent-marker
(`none`) even if the stored hand was non-empty, and no hand is re-sent;
otherwise the stored hand is restored unchanged, and when the phase is Active
and the stored hand is a present array it is re-sent to the new connection
only; the reconnect reports success. -/
theorem reconnect_restores_hand (g : CardGame) (pid : PlayerId) (ws : ConnId)
    (playerName : String) (info : DiscInfo)
    (h : aget g.disconnectedPlayers pid = some info) :
    (smem g.diedPlayers pid = true →
      aget (handleReconnect g pid ws playerName).1.players pid = some ⟨ws, playerName, none⟩ ∧
      (handleReconnect g pid ws playerName).2.1 = []) ∧
    (smem g.diedPlayers pid = false →
      aget (handleReconnect g pid ws playerName).1.players pid =
        some ⟨ws, playerName, info.cards⟩) ∧
    (∀ l, smem g.diedPlayers pid = false → g.gameStarted = true → info.cards = some l →
      (handleReconnect g pid ws playerName).2.1 = [(ws, Msg.cards l)]) ∧
    (handleReconnect g pid ws playerName).2.2 = true := by
  simp only [handleReconnect, h]
  refine ⟨?_, ?_, ?_, by trivial⟩
  · intro hd
    simp [hd, aget_aset_self]
  · intro hd
    simp [hd, aget_aset_self]
  · intro l hd hs hc
    simp [hd, hs, hc]

/-- Witness for C7: a concrete forfeited, disconnected Bob whose raw stored
hand is non-empty reconnects and gets the absent-marker hand and no `cards`
message. -/
theorem reconnect_restores_hand_witness :
    aget (handleReconnect
        { roomCode := "1234", players := [("A", ⟨1, "Alice", some [1, 2]⟩)],
          gameStarted := true, hostId := some "A", firstGamePlayers := [],
          diedPlayers := ["B"],
          disconnectedPlayers := [("B", ⟨2, "Bob", some [3, 4], 100⟩)],
          pendingTimers := [("B", 300100)] }
        "B" 3 "Bob").1.players "B" = some ⟨3, "Bob", none⟩ :=
  ((reconnect_restores_hand _ "B" 3 "Bob" ⟨2, "Bob", some [3, 4], 100⟩ (by decide)).1
    (by decide)).1

/-- C10.  Joining with an identity already present in `players` (and not in
`disconnected`) while the phase is Lobby, the room is below capacity, and the
supplied display name differs from every connected player's name, succeeds
and silently replaces that identity's entry with a fresh one — empty hand,
new connection handle and display name — leaving the player count, the other
entries, and `hostIdentity` unchanged. -/
theorem rejoin_silently_replaces (isOpen : ConnId → Bool) (g : CardGame) (pid : PlayerId)
    (playerName : String) (ws : ConnId)
    (h1 : ahas g.players pid = true)
    (h2 : ahas g.disconnectedPlayers pid = false)
    (h3 : g.gameStarted = false)
    (h4 : g.players.length < MAX_PLAYERS)
    (h5 : ∀ p ∈ g.players, p.2.name ≠ playerName) :
    (joinRoomStep isOpen g g.roomCode pid playerName ws).1.players =
      aset g.players pid ⟨ws, playerName, some []⟩ ∧
    aget (joinRoomStep isOpen g g.roomCode pid playerName ws).1.players pid =
      some ⟨ws, playerName, some []⟩ ∧
    (joinRoomStep isOpen g g.roomCode pid playerName ws).1.players.length =
      g.players.length ∧
    (joinRoomStep isOpen g g.roomCode pid playerName ws).1.hostId = g.hostId ∧
    (joinRoomStep isOpen g g.roomCode pid playerName ws).1.gameStarted = false ∧
    (joinRoomStep isOpen g g.roomCode pid playerName ws).1.disconnectedPlayers =
      g.disconnectedPlayers ∧
    (joinRoomStep isOpen g g.roomCode pid playerName ws).2 =
      (ws, Msg.joinResponse g.roomCode pid (decide (g.hostId = some pid)) false)
        :: broadcastGameState isOpen (joinRoomStep isOpen g g.roomCode pid playerName ws).1 := by
  have hname : (g.players.any fun p => decide (p.2.name = playerName)) = false := by
    rw [List.any_eq_false]
    intro p hp
    simp [h5 p hp]
  have hn : aget g.disconnectedPlayers pid = none := by
    cases hh : aget g.disconnectedPlayers pid with
    | none => rfl
    | some v => simp [ahas, hh] at h2
  have hfull : ¬ MAX_PLAYERS ≤ g.players.length := Nat.not_le.mpr h4
  simp only [joinRoomStep, hname, handleReconnect, hn, h3, hfull, Bool.false_and,
    Bool.false_eq_true, if_false, if_neg hfull]
  refine ⟨by trivial, aget_aset_self _ _ _, length_aset_of_ahas _ _ _ h1, by trivial,
    by trivial, by trivial, by trivial⟩

/-- Witness for C10: in a Lobby room where Alice holds a stale entry for
identity "A", joining again as "Alicia" on connection 5 replaces the entry in
place. -/
theorem rejoin_silently_replaces_witness :
    (joinRoomStep allOpen
        { roomCode := "1234",
          players := [("A", ⟨1, "Alice", some []⟩), ("B", ⟨2, "Bob", some []⟩)],
          gameStarted := false, hostId := some "A", firstGamePlayers := [],
          diedPlayers := [], disconnectedPlayers := [], pendingTimers := [] }
        "1234" "A" "Alicia" 5).1.players =
      [("A", ⟨5, "Alicia", some []⟩), ("B", ⟨2, "Bob", some []⟩)] := by
  have h := (rejoin_silently_replaces allOpen
    { roomCode := "1234",
      players := [("A", ⟨1, "Alice", some []⟩), ("B", ⟨2, "Bob", some []⟩)],
      gameStarted := false, hostId := some "A", firstGamePlayers := [],
      diedPlayers := [], disconnectedPlayers := [], pendingTimers := [] }
    "A" "Alicia" 5 (by decide) (by decide) (by decide) (by decide)
    (by decide)).1
  rw [h]
  decide

/-- C5.  Every precondition violation of start / end / die / join maps to the
specified error, leaves the session (and the registry) unchanged, and the
error text is sent to the originating connection only — never broadcast.
Session-level: `startGame` rejects a non-host caller, fewer than two players,
and an already-started game; `endGame` rejects a non-host; `playerDie`
rejects an absent player — all without touching the state and without
producing any send.  Handler-level: the single error message goes to the
caller's connection `ws` and the registry is left intact; the `joinRoom`
handler likewise reports an unknown room code, a taken nickname, a started
game and a full room to the caller only, with no state change. -/
theorem errors_are_local_and_pure (isOpen : ConnId → Bool) (shuffled : List Nat)
    (rooms : Registry) (code : String) (pid : PlayerId) (playerName : String)
    (ws : ConnId) (g : CardGame) :
    (g.hostId ≠ some pid →
      startGame isOpen shuffled g pid = (g, some errNotHostStart, [])) ∧
    (g.hostId = some pid → g.players.length < 2 →
      startGame isOpen shuffled g pid = (g, some errNeedTwoPlayers, [])) ∧
    (g.hostId = some pid → ¬ g.players.length < 2 → g.gameStarted = true →
      startGame isOpen shuffled g pid = (g, some errAlreadyStarted, [])) ∧
    (g.hostId ≠ some pid → endGame isOpen g pid = (g, some errNotHostEnd, [])) ∧
    (ahas g.players pid = false →
      playerDie isOpen g pid = (g, some errPlayerNotFound, [])) ∧
    (aget rooms code = some g →
      (g.hostId ≠ some pid →
        startHandler isOpen shuffled rooms code pid ws =
          (rooms, [(ws, Msg.error errNotHostStart)])) ∧
      (g.hostId ≠ some pid →
        endHandler isOpen rooms code pid ws = (rooms, [(ws, Msg.error errNotHostEnd)])) ∧
      (ahas g.players pid = false →
        dieHandler isOpen rooms code pid ws = (rooms, [(ws, Msg.error errPlayerNotFound)]))) ∧
    (aget rooms code = none →
      joinHandler isOpen rooms code pid playerName ws =
        (rooms, [(ws, Msg.error errRoomNotFound)])) ∧
    (aget rooms code = some g →
      (g.players.any fun p => decide (p.2.name = playerName)) = true →
      ahas g.disconnectedPlayers pid = false →
      joinHandler isOpen rooms code pid playerName ws =
        (rooms, [(ws, Msg.error errNameTaken)])) ∧
    (aget rooms code = some g →
      ahas g.disconnectedPlayers pid = false → g.gameStarted = true →
      joinHandler isOpen rooms code pid playerName ws =
        (rooms, [(ws, Msg.error errGameInProgress)]) ∨
      joinHandler isOpen rooms code pid playerName ws =
        (rooms, [(ws, Msg.error errNameTaken)])) ∧
    (aget rooms code = some g →
      (g.players.any fun p => decide (p.2.name = playerName)) = false →
      ahas g.disconnectedPlayers pid = false → g.gameStarted = false →
      MAX_PLAYERS ≤ g.players.length →
      joinHandler isOpen rooms code pid playerName ws =
        (rooms, [(ws, Msg.error errRoomFull)])) := by
  have hnone : ahas g.disconnectedPlayers pid = false →
      aget g.disconnectedPlayers pid = none := by
    intro h2
    cases hh : aget g.disconnectedPlayers pid with
    | none => rfl
    | some v => simp [ahas, hh] at h2
  refine ⟨?_, ?_, ?_, ?_, ?_, ?_, ?_, ?_, ?_, ?_⟩
  · intro h
    simp [startGame, h]
  · intro h hlt
    simp [startGame, h, hlt]
  · intro h hge hs
    simp [startGame, h, hge, hs]
  · intro h
    simp [endGame, h]
  · intro h
    have : aget g.players pid = none := by
      cases hh : aget g.players pid with
      | none => rfl
      | some v => simp [ahas, hh] at h
    simp [playerDie, this]
  · intro hr
    refine ⟨?_, ?_, ?_⟩
    · intro h
      simp [startHandler, hr, startGame, h, aset_self rooms code g hr]
    · intro h
      simp [endHandler, hr, endGame, h, aset_self rooms code g hr]
    · intro h
      have : aget g.players pid = none := by
        cases hh : aget g.players pid with
        | none => rfl
        | some v => simp [ahas, hh] at h
      simp [dieHandler, hr, playerDie, this, aset_self rooms code g hr]
  · intro hr
    simp [joinHandler, hr]
  · intro hr hname h2
    simp [joinHandler, hr, joinRoomStep, hname, h2, aset_self rooms code g hr]
  · intro hr h2 hs
    cases hname : g.players.any fun p => decide (p.2.name = playerName) with
    | true =>
        right
        simp [joinHandler, hr, joinRoomStep, hname, h2, aset_self rooms code g hr]
    | false =>
        left
        simp [joinHandler, hr, joinRoomStep, hname, h2, handleReconnect, hnone h2, hs,
          aset_self rooms code g hr]
  · intro hr hname h2 hs hfull
    simp [joinHandler, hr, joinRoomStep, hname, h2, handleReconnect, hnone h2, hs, hfull,
      Nat.not_lt.mpr hfull, aset_self rooms code g hr]

/-- Witness for C5: Bob, who is not the host, tries to start the game in a
concrete two-player room; the call returns the not-host error, the state is
untouched, and nothing is sent from inside the operation. -/
theorem errors_are_local_and_pure_witness :
    startGame allOpen deckCards gAliceBob "B" = (gAliceBob, some errNotHostStart, []) :=
  (errors_are_local_and_pure allOpen deckCards [] "1234" "B" "Bob" 2 gAliceBob).1
    (by decide)

/-! ### Dealing (C6) -/

theorem slice_subset_take (l : List Nat) (a n : Nat) : (l.drop a).take n ⊆ l.take (a + n) := by
  intro x hx
  have h : (l.take (a + n)).drop a = (l.drop a).take n := by
    rw [List.drop_take]
    congr 1
    omega
  rw [← h] at hx
  exact List.drop_subset _ _ hx

theorem slice_subset_drop (l : List Nat) (a b n : Nat) (h : a ≤ b) :
    (l.drop b).take n ⊆ l.drop a := by
  intro x hx
  have hx2 : x ∈ l.drop b := List.take_subset _ _ hx
  have hb : l.drop b = (l.drop a).drop (b - a) := by
    rw [List.drop_drop]
    congr 1
    omega
  rw [hb] at hx2
  exact List.drop_subset _ _ hx2

/-- Non-overlapping index windows of a duplicate-free list hold disjoint
values. -/
theorem slices_disjoint (l : List Nat) (hnd : l.Nodup) (a b n m : Nat) (h : a + n ≤ b) :
    List.Disjoint ((l.drop a).take n) ((l.drop b).take m) := by
  intro x hx1 hx2
  have h1 : x ∈ l.take (a + n) := slice_subset_take l a n hx1
  have h2 : x ∈ l.drop (a + n) := slice_subset_drop l (a + n) b m h hx2
  exact List.disjoint_take_drop hnd le_rfl h1 h2

/-- Position `i` of the dealt player list: the `i`-th present player receives
the slice of the shuffled deck at positions `idx + 2 i .. idx + 2 i + 1`. -/
theorem dealHands_get (shuffled : List Nat) (ps : List (PlayerId × PlayerInfo)) (idx i : Nat) :
    (dealHands shuffled idx ps).get? i =
      (ps.get? i).map fun p =>
        (p.1, { p.2 with cards := some ((shuffled.drop (idx + 2 * i)).take 2) }) := by
  induction ps generalizing idx i with
  | nil => simp [dealHands]
  | cons p rest ih =>
      cases i with
      | zero => simp [dealHands, CARDS_PER_PLAYER]
      | succ n =>
          have harith : idx + 2 * (n + 1) = idx + 2 + 2 * n := by ring
          simp only [dealHands, CARDS_PER_PLAYER, List.get?_cons_succ, harith]
          exact ih (idx + 2) n

/-- The hand dealt to the `i`-th present player (reading the post-deal state). -/
def handAt (g : CardGame) (i : Nat) : List Nat :=
  match g.players.get? i with
  | some p => p.2.cards.getD []
  | none => []

/-- C6.  On a successful start with 2–10 present players, dealing consumes a
permutation of the fixed 20-value deck left to right without replacement:
the `i`-th player (in join order) receives exactly the two deck positions
`2 i` and `2 i + 1`, every hand has exactly 2 cards, and the hands of any two
distinct players are disjoint. -/
theorem deal_two_each_no_replacement (isOpen : ConnId → Bool) (shuffled : List Nat)
    (g : CardGame) (hperm : shuffled.Perm deckCards)
    (h2 : 2 ≤ g.players.length) (h10 : g.players.length ≤ 10) :
    (∀ i, i < g.players.length →
      handAt (distributeCards isOpen shuffled g).1 i = (shuffled.drop (2 * i)).take 2 ∧
      (handAt (distributeCards isOpen shuffled g).1 i).length = 2) ∧
    (∀ i j, i < j → j < g.players.length →
      List.Disjoint (handAt (distributeCards isOpen shuffled g).1 i)
        (handAt (distributeCards isOpen shuffled g).1 j)) := by
  have hlen : shuffled.length = 20 := by
    rw [hperm.length_eq]
    decide
  have hnd : shuffled.Nodup := hperm.nodup_iff.mpr (by decide)
  have hhand : ∀ i, i < g.players.length →
      handAt (distributeCards isOpen shuffled g).1 i = (shuffled.drop (2 * i)).take 2 := by
    intro i hi
    cases hp : g.players.get? i with
    | none =>
        rw [List.get?_eq_none] at hp
        omega
    | some p =>
        have : (distributeCards isOpen shuffled g).1.players.get? i =
            some (p.1, { p.2 with cards := some ((shuffled.drop (0 + 2 * i)).take 2) }) := by
          show (dealHands shuffled 0 g.players).get? i = _
          rw [dealHands_get, hp]
          rfl
        simp only [handAt, this, Nat.zero_add]
        rfl
  refine ⟨fun i hi => ⟨hhand i hi, ?_⟩, fun i j hij hj => ?_⟩
  · rw [hhand i hi]
    simp only [List.length_take, List.length_drop, hlen]
    omega
  · rw [hhand i (hij.trans hj), hhand j hj]
    exact slices_disjoint shuffled hnd (2 * i) (2 * j) 2 2 (by omega)

/-- Witness for C6: in the concrete two-player room, with the identity
permutation of the deck, Alice's and Bob's dealt hands are disjoint. -/
theorem deal_two_each_no_replacement_witness :
    List.Disjoint (handAt (distributeCards allOpen deckCards gAliceBob).1 0)
      (handAt (distributeCards allOpen deckCards gAliceBob).1 1) :=
  (deal_two_each_no_replacement allOpen deckCards gAliceBob (List.Perm.refl deckCards)
    (by decide) (by decide)).2 0 1 (by decide) (by decide)

/-! ### Membership well-formedness (C8) -/

/-- Well-formedness of the two membership maps: keys are duplicate-free (as
for any JS `Map`) and no identity is in both maps. -/
def WFm (ps : List (PlayerId × PlayerInfo)) (ds : List (PlayerId × DiscInfo)) : Prop :=
  (akeys ps).Nodup ∧ (akeys ds).Nodup ∧ ∀ k, k ∈ akeys ps → k ∉ akeys ds

/-- Well-formedness of a session state. -/
def WF (g : CardGame) : Prop := WFm g.players g.disconnectedPlayers

/-- Decidable form of `WF`. -/
def wfB (g : CardGame) : Bool :=
  decide (akeys g.players).Nodup && (decide (akeys g.disconnectedPlayers).Nodup &&
    (akeys g.players).all fun k => !ahas g.disconnectedPlayers k)

theorem wfB_iff (g : CardGame) : wfB g = true ↔ WF g := by
  unfold wfB WF WFm
  simp only [Bool.and_eq_true, decide_eq_true_eq, List.all_eq_true, Bool.not_eq_true',
    and_assoc, and_congr_right_iff]
  intro _ _
  constructor
  · intro hall k hk
    have := hall k hk
    rw [← ahas_iff_mem_akeys]
    simp [this]
  · intro hall k hk
    have := hall k hk
    rw [← ahas_iff_mem_akeys] at this
    simp at this
    exact this

theorem not_mem_of_ahas_false {β : Type} (m : List (PlayerId × β)) (k : PlayerId)
    (h : ahas m k = false) : k ∉ akeys m := by
  rw [← ahas_iff_mem_akeys]
  simp [h]

theorem WFm_aset_left (ps : List (PlayerId × PlayerInfo)) (ds : List (PlayerId × DiscInfo))
    (pid : PlayerId) (v : PlayerInfo) (h : WFm ps ds) (hnd : pid ∉ akeys ds) :
    WFm (aset ps pid v) ds := by
  obtain ⟨h1, h2, h3⟩ := h
  refine ⟨?_, h2, ?_⟩
  · rw [akeys_aset]
    by_cases hh : ahas ps pid = true
    · simp [hh, h1]
    · simp only [Bool.not_eq_true] at hh
      rw [if_neg (by simp [hh])]
      rw [List.nodup_append]
      refine ⟨h1, List.nodup_singleton _, ?_⟩
      intro a ha hb
      simp only [List.mem_singleton] at hb
      subst hb
      exact not_mem_of_ahas_false ps a hh ha
  · intro k hk
    rw [akeys_aset] at hk
    by_cases hh : ahas ps pid = true
    · rw [if_pos hh] at hk
      exact h3 k hk
    · simp only [Bool.not_eq_true] at hh
      rw [if_neg (by simp [hh])] at hk
      rcases List.mem_append.mp hk with hk | hk
      · exact h3 k hk
      · simp only [List.mem_singleton] at hk
        exact hk ▸ hnd

theorem ahas_false_of_not_mem {β : Type} (m : List (PlayerId × β)) (k : PlayerId)
    (h : k ∉ akeys m) : ahas m k = false := by
  cases hh : ahas m k with
  | false => rfl
  | true => exact absurd ((ahas_iff_mem_akeys m k).mp hh) h

theorem WFm_move_to_right (ps : List (PlayerId × PlayerInfo)) (ds : List (PlayerId × DiscInfo))
    (pid : PlayerId) (v : DiscInfo) (h : WFm ps ds) (hp : pid ∈ akeys ps) :
    WFm (adel ps pid) (aset ds pid v) := by
  obtain ⟨h1, h2, h3⟩ := h
  have hpd : pid ∉ akeys ds := h3 pid hp
  have hkeys : akeys (aset ds pid v) = akeys ds ++ [pid] := by
    rw [akeys_aset, if_neg (by simp [ahas_false_of_not_mem ds pid hpd])]
  refine ⟨?_, ?_, ?_⟩
  · rw [akeys_adel]
    exact h1.erase pid
  · rw [hkeys, List.nodup_append]
    refine ⟨h2, List.nodup_singleton _, ?_⟩
    intro a ha hb
    simp only [List.mem_singleton] at hb
    subst hb
    exact hpd ha
  · intro k hk
    rw [akeys_adel, h1.mem_erase_iff] at hk
    rw [hkeys]
    simp only [List.mem_append, List.mem_singleton]
    rintro (hd | hd)
    · exact h3 k hk.2 hd
    · exact hk.1 hd

theorem WFm_move_to_left (ps : List (PlayerId × PlayerInfo)) (ds : List (PlayerId × DiscInfo))
    (pid : PlayerId) (v : PlayerInfo) (h : WFm ps ds) (hd : pid ∈ akeys ds) :
    WFm (aset ps pid v) (adel ds pid) := by
  obtain ⟨h1, h2, h3⟩ := h
  have hpp : pid ∉ akeys ps := fun hmem => h3 pid hmem hd
  have hkeys : akeys (aset ps pid v) = akeys ps ++ [pid] := by
    rw [akeys_aset, if_neg (by simp [ahas_false_of_not_mem ps pid hpp])]
  refine ⟨?_, ?_, ?_⟩
  · rw [hkeys, List.nodup_append]
    refine ⟨h1, List.nodup_singleton _, ?_⟩
    intro a ha hb
    simp only [List.mem_singleton] at hb
    subst hb
    exact hpp ha
  · rw [akeys_adel]
    exact h2.erase pid
  · intro k hk
    rw [hkeys] at hk
    rw [akeys_adel, h2.mem_erase_iff]
    simp only [List.mem_append, List.mem_singleton] at hk
    rintro ⟨hne, hmem⟩
    rcases hk with hk | hk
    · exact h3 k hk hmem
    · exact hne hk

theorem WFm_adel_left (ps : List (PlayerId × PlayerInfo)) (ds : List (PlayerId × DiscInfo))
    (pid : PlayerId) (h : WFm ps ds) : WFm (adel ps pid) ds := by
  obtain ⟨h1, h2, h3⟩ := h
  refine ⟨?_, h2, ?_⟩
  · rw [akeys_adel]
    exact h1.erase pid
  · intro k hk
    rw [akeys_adel] at hk
    exact h3 k (List.erase_subset _ _ hk)

theorem WFm_adel_right (ps : List (PlayerId × PlayerInfo)) (ds : List (PlayerId × DiscInfo))
    (pid : PlayerId) (h : WFm ps ds) : WFm ps (adel ds pid) := by
  obtain ⟨h1, h2, h3⟩ := h
  refine ⟨h1, ?_, ?_⟩
  · rw [akeys_adel]
    exact h2.erase pid
  · intro k hk
    rw [akeys_adel]
    intro hmem
    exact h3 k hk (List.erase_subset _ _ hmem)

theorem WFm_keys_left (ps ps2 : List (PlayerId × PlayerInfo)) (ds : List (PlayerId × DiscInfo))
    (h : WFm ps ds) (he : akeys ps2 = akeys ps) : WFm ps2 ds := by
  obtain ⟨h1, h2, h3⟩ := h
  exact ⟨he ▸ h1, h2, fun k hk => h3 k (he ▸ hk)⟩

theorem akeys_dealHands (shuffled : List Nat) (idx : Nat)
    (ps : List (PlayerId × PlayerInfo)) : akeys (dealHands shuffled idx ps) = akeys ps := by
  induction ps generalizing idx with
  | nil => rfl
  | cons p rest ih =>
      have hr := ih (idx + CARDS_PER_PLAYER)
      simp only [akeys] at hr
      simp [dealHands, akeys, hr]

theorem akeys_clearDiedCards (died : List PlayerId) (ps : List (PlayerId × PlayerInfo)) :
    akeys (clearDiedCards died ps) = akeys ps := by
  induction died generalizing ps with
  | nil => rfl
  | cons pid rest ih =>
      show akeys (clearDiedCards rest _) = _
      rw [ih]
      cases hp : aget ps pid with
      | none => simp [hp]
      | some info =>
          simp only [hp]
          rw [akeys_aset, if_pos (by simp [ahas, hp])]

/-- Every operation of the session state machine preserves well-formedness of
the membership maps. -/
theorem WF_step (isOpen : ConnId → Bool) (g : CardGame) (op : SOp) (h : WF g) :
    WF (step isOpen g op) := by
  cases op with
  | join pid playerName ws =>
      show WF (joinRoomStep isOpen g g.roomCode pid playerName ws).1
      unfold joinRoomStep
      split
      · exact h
      · cases hr : aget g.disconnectedPlayers pid with
        | some info =>
            simp only [handleReconnect, hr]
            exact WFm_move_to_left _ _ _ _ h ((ahas_iff_mem_akeys _ _).mp (by simp [ahas, hr]))
        | none =>
            simp only [handleReconnect, hr]
            split
            · exact h
            · split
              · exact h
              · split
                · exact h
                · exact WFm_aset_left _ _ _ _ h
                    (not_mem_of_ahas_false g.disconnectedPlayers pid (by simp [ahas, hr]))
  | leave now pid =>
      show WF (leaveRoom now g pid).1
      unfold leaveRoom
      cases hp : aget g.players pid with
      | none => exact h
      | some info =>
          simp only
          have hmem : pid ∈ akeys g.players := (ahas_iff_mem_akeys _ _).mp (by simp [ahas, hp])
          split
          · -- state is preserved into disconnected
            split
            · split
              · exact WFm_move_to_right _ _ _ _ h hmem
              · exact WFm_move_to_right _ _ _ _ h hmem
            · exact WFm_move_to_right _ _ _ _ h hmem
          · -- dropped entirely
            split
            · split
              · exact WFm_adel_left _ _ _ h
              · exact WFm_adel_left _ _ _ h
            · exact WFm_adel_left _ _ _ h
  | close now ws =>
      show WF (closeStep isOpen now g ws).1
      unfold closeStep
      cases hf : g.players.find? fun p => decide (p.2.ws = ws) with
      | none => exact h
      | some q =>
          simp only [handleDisconnect]
          cases hp : aget g.players q.1 with
          | none => simp only; split <;> first
              | exact h
              | (split
                 · exact h
                 · exact h)
          | some info =>
              have hmem : q.1 ∈ akeys g.players :=
                (ahas_iff_mem_akeys _ _).mp (by simp [ahas, hp])
              simp only
              split
              · split
                · exact WFm_move_to_right _ _ _ _ h hmem
                · exact WFm_move_to_right _ _ _ _ h hmem
              · exact WFm_move_to_right _ _ _ _ h hmem
  | start pid shuffled =>
      show WF (startGame isOpen shuffled g pid).1
      unfold startGame
      split
      · split
        · exact h
        · split
          · exact h
          · exact WFm_keys_left _ _ _ h (akeys_dealHands _ _ _)
      · exact h
  | endRound pid =>
      show WF (endGame isOpen g pid).1
      unfold endGame
      split
      · exact WFm_keys_left _ _ _ h (akeys_clearDiedCards _ _)
      · exact h
  | die pid =>
      show WF (playerDie isOpen g pid).1
      unfold playerDie
      cases hp : aget g.players pid with
      | none => exact h
      | some info =>
          simp only
          exact WFm_keys_left _ _ _ h
            (by rw [akeys_aset, if_pos (by simp [ahas, hp])])
  | expire pid due =>
      show WF (timerFire isOpen g pid due).1
      cases hd : ahas g.disconnectedPlayers pid with
      | true =>
          simp only [timerFire, hd]
          exact WFm_adel_right _ _ _ h
      | false =>
          simp only [timerFire, hd]
          exact h

theorem WF_run (isOpen : ConnId → Bool) (g : CardGame) (ops : List SOp) (h : WF g) :
    WF (run isOpen g ops) := by
  induction ops generalizing g with
  | nil => exact h
  | cons op rest ih => exact ih (step isOpen g op) (WF_step isOpen g op h)

theorem WF_initGame (code : String) (pid : PlayerId) (playerName : String) (ws : ConnId) :
    WF (initGame code pid playerName ws) := by
  refine ⟨List.nodup_singleton _, List.nodup_nil, ?_⟩
  intro k _
  simp [initGame, akeys]

/-- C8.  Along every sequence of operations applied to a freshly created
session — joins, reconnects, leaves, socket closes, starts, ends, forfeits
and grace expiries — no identity is ever simultaneously a key of `players`
and of `disconnected`. -/
theorem membership_mutually_exclusive (isOpen : ConnId → Bool) (code : String)
    (pid0 : PlayerId) (name0 : String) (ws0 : ConnId) (ops : List SOp) (pid : PlayerId) :
    (ahas (run isOpen (initGame code pid0 name0 ws0) ops).players pid &&
      ahas (run isOpen (initGame code pid0 name0 ws0) ops).disconnectedPlayers pid) = false := by
  have hwf := WF_run isOpen (initGame code pid0 name0 ws0) ops
    (WF_initGame code pid0 name0 ws0)
  obtain ⟨-, -, h3⟩ := hwf
  cases hp : ahas (run isOpen (initGame code pid0 name0 ws0) ops).players pid with
  | false => rfl
  | true =>
      rw [Bool.true_and]
      exact ahas_false_of_not_mem _ _ (h3 pid ((ahas_iff_mem_akeys _ _).mp hp))

/-! ### Host membership (C2) -/

/-- The host, when set, is a present player and not a disconnected one. -/
def hostOk (g : CardGame) : Prop :=
  ∀ x, g.hostId = some x → x ∈ akeys g.players ∧ x ∉ akeys g.disconnectedPlayers

/-- Decidable form of `hostOk`. -/
def hostOkB (g : CardGame) : Bool :=
  match g.hostId with
  | none => true
  | some x => decide (x ∈ akeys g.players) && !ahas g.disconnectedPlayers x

theorem hostOkB_iff (g : CardGame) : hostOkB g = true ↔ hostOk g := by
  unfold hostOkB hostOk
  cases hg : g.hostId with
  | none => simp
  | some x0 =>
      simp only [Bool.and_eq_true, decide_eq_true_eq, Bool.not_eq_true', Option.some.injEq]
      constructor
      · rintro ⟨h1, h2⟩ x hx
        subst hx
        exact ⟨h1, not_mem_of_ahas_false _ _ h2⟩
      · intro hall
        obtain ⟨h1, h2⟩ := hall x0 rfl
        exact ⟨h1, ahas_false_of_not_mem _ _ h2⟩

theorem head?_key_mem {β : Type} (m : List (PlayerId × β)) (q : PlayerId × β)
    (h : m.head? = some q) : q.1 ∈ akeys m := by
  cases m with
  | nil => simp at h
  | cons a t =>
      simp only [List.head?_cons, Option.some.injEq] at h
      subst h
      simp [akeys]

theorem mem_akeys_aset_of_mem {β : Type} (m : List (PlayerId × β)) (k k' : PlayerId) (v : β)
    (h : k' ∈ akeys m) : k' ∈ akeys (aset m k v) := by
  rw [akeys_aset]
  split
  · exact h
  · exact List.mem_append_left _ h

theorem mem_akeys_of_mem_aset {β : Type} (m : List (PlayerId × β)) (k k' : PlayerId) (v : β)
    (h : k' ∈ akeys (aset m k v)) : k' ∈ akeys m ∨ k' = k := by
  rw [akeys_aset] at h
  split at h
  · exact Or.inl h
  · rcases List.mem_append.mp h with h | h
    · exact Or.inl h
    · simp only [List.mem_singleton] at h
      exact Or.inr h

/-- Monotone preservation of `hostOk`: a step that keeps the host field,
cannot remove present players, and cannot add disconnected ones. -/
theorem hostOk_mono (g g2 : CardGame) (hh : hostOk g)
    (hid : g2.hostId = g.hostId)
    (hp : ∀ k, k ∈ akeys g.players → k ∈ akeys g2.players)
    (hd : ∀ k, k ∈ akeys g2.disconnectedPlayers → k ∈ akeys g.disconnectedPlayers) :
    hostOk g2 := by
  intro x hx
  rw [hid] at hx
  obtain ⟨h1, h2⟩ := hh x hx
  exact ⟨hp x h1, fun hc => h2 (hd x hc)⟩

/-- Core of host preservation under removal of `pid` from `players` (used for
both `leaveRoom` and the close handler): a surviving host different from the
removed player stays valid, and so does a host promoted from the head of the
remaining list. -/
theorem hostOk_removal_core (g : CardGame) (pid : PlayerId)
    (D2 : List (PlayerId × DiscInfo)) (hwf : WF g) (hh : hostOk g)
    (hD : ∀ k, k ∈ akeys D2 → k ∈ akeys g.disconnectedPlayers ∨ k = pid) :
    (∀ x, g.hostId = some x → x ≠ pid →
      x ∈ akeys (adel g.players pid) ∧ x ∉ akeys D2) ∧
    (∀ q, (adel g.players pid).head? = some q →
      q.1 ∈ akeys (adel g.players pid) ∧ q.1 ∉ akeys D2) := by
  obtain ⟨hnd, -, hdisj⟩ := hwf
  constructor
  · intro x hx hne
    obtain ⟨hmem, hnd2⟩ := hh x hx
    refine ⟨?_, ?_⟩
    · rw [akeys_adel]
      exact (List.mem_erase_of_ne hne).mpr hmem
    · intro hc
      rcases hD x hc with hc | hc
      · exact hnd2 hc
      · exact hne hc
  · intro q hq
    have hmem : q.1 ∈ akeys (adel g.players pid) := head?_key_mem _ _ hq
    have hsplit : q.1 ≠ pid ∧ q.1 ∈ akeys g.players := by
      rw [akeys_adel] at hmem
      exact hnd.mem_erase_iff.mp hmem
    refine ⟨hmem, ?_⟩
    intro hc
    rcases hD q.1 hc with hc | hc
    · exact hdisj q.1 hsplit.2 hc
    · exact hsplit.1 hc

/-- Host preservation for each operation: either the host stays a present
player (and not a disconnected one), or the operation emptied `players`. -/
theorem hostOk_step (isOpen : ConnId → Bool) (op : SOp) (g : CardGame)
    (hwf : WF g) (hh : hostOk g) :
    hostOk (step isOpen g op) ∨ (step isOpen g op).players = [] := by
  cases op with
  | join pid playerName ws =>
      show hostOk (joinRoomStep isOpen g g.roomCode pid playerName ws).1 ∨ _
      unfold joinRoomStep
      split
      · exact Or.inl hh
      · cases hr : aget g.disconnectedPlayers pid with
        | some info =>
            simp only [handleReconnect, hr, if_true]
            refine Or.inl (hostOk_mono g _ hh rfl ?_ ?_)
            · intro k hk
              exact mem_akeys_aset_of_mem _ _ _ _ hk
            · intro k hk
              rw [akeys_adel] at hk
              exact List.erase_subset _ _ hk
        | none =>
            simp only [handleReconnect, hr]
            split
            · exact Or.inl hh
            · split
              · exact Or.inl hh
              · split
                · exact Or.inl hh
                · refine Or.inl (hostOk_mono g _ hh rfl ?_ fun k hk => hk)
                  intro k hk
                  exact mem_akeys_aset_of_mem _ _ _ _ hk
  | leave now pid =>
      show hostOk (leaveRoom now g pid).1 ∨ (leaveRoom now g pid).1.players = []
      unfold leaveRoom
      cases hp : aget g.players pid with
      | none => exact Or.inl hh
      | some info =>
          simp only
          split
          · -- preserved into disconnected
            have hD : ∀ k,
                k ∈ akeys (aset g.disconnectedPlayers pid ⟨info.ws, info.name, info.cards, now⟩) →
                k ∈ akeys g.disconnectedPlayers ∨ k = pid :=
              fun k hk => mem_akeys_of_mem_aset _ _ _ _ hk
            have hcore := hostOk_removal_core g pid _ hwf hh hD
            split
            · rename_i hhost
              split
              next q hq =>
                refine Or.inl ?_
                intro x hx
                have hx2 : q.1 = x := by simpa using hx
                subst hx2
                exact hcore.2 q hq
              next hq =>
                exact Or.inr (List.head?_eq_none_iff.mp hq)
            · rename_i hhost
              refine Or.inl ?_
              intro x hx
              refine hcore.1 x hx ?_
              intro hxe
              subst hxe
              exact hhost hx
          · -- dropped entirely (Lobby, empty hand): disconnected unchanged
            have hD : ∀ k, k ∈ akeys g.disconnectedPlayers →
                k ∈ akeys g.disconnectedPlayers ∨ k = pid := fun k hk => Or.inl hk
            have hcore := hostOk_removal_core g pid _ hwf hh hD
            split
            · rename_i hhost
              split
              next q hq =>
                refine Or.inl ?_
                intro x hx
                have hx2 : q.1 = x := by simpa using hx
                subst hx2
                exact hcore.2 q hq
              next hq =>
                exact Or.inr (List.head?_eq_none_iff.mp hq)
            · rename_i hhost
              refine Or.inl ?_
              intro x hx
              refine hcore.1 x hx ?_
              intro hxe
              subst hxe
              exact hhost hx
  | close now ws =>
      show hostOk (closeStep isOpen now g ws).1 ∨ (closeStep isOpen now g ws).1.players = []
      unfold closeStep
      cases hf : g.players.find? fun p => decide (p.2.ws = ws) with
      | none => exact Or.inl hh
      | some q =>
          simp only [handleDisconnect]
          cases hp : aget g.players q.1 with
          | none =>
              simp only
              split
              · rename_i hhost
                split
                next q2 hq =>
                  refine Or.inl ?_
                  intro x hx
                  have hx2 : q2.1 = x := by simpa using hx
                  subst hx2
                  have hmem := head?_key_mem _ _ hq
                  exact ⟨hmem, fun hc => hwf.2.2 q2.1 hmem hc⟩
                next hq =>
                  exact Or.inr (List.head?_eq_none_iff.mp hq)
              · exact Or.inl hh
          | some info =>
              simp only
              have hD : ∀ k,
                  k ∈ akeys (aset g.disconnectedPlayers q.1
                    ⟨info.ws, info.name, info.cards, now⟩) →
                  k ∈ akeys g.disconnectedPlayers ∨ k = q.1 :=
                fun k hk => mem_akeys_of_mem_aset _ _ _ _ hk
              have hcore := hostOk_removal_core g q.1 _ hwf hh hD
              split
              · rename_i hhost
                split
                next q2 hq =>
                  refine Or.inl ?_
                  intro x hx
                  have hx2 : q2.1 = x := by simpa using hx
                  subst hx2
                  exact hcore.2 q2 hq
                next hq =>
                  exact Or.inr (List.head?_eq_none_iff.mp hq)
              · rename_i hhost
                refine Or.inl ?_
                intro x hx
                refine hcore.1 x hx ?_
                intro hxe
                subst hxe
                exact hhost hx
  | start pid shuffled =>
      show hostOk (startGame isOpen shuffled g pid).1 ∨
        (startGame isOpen shuffled g pid).1.players = []
      unfold startGame
      split
      · split
        · exact Or.inl hh
        · split
          · exact Or.inl hh
          · refine Or.inl (hostOk_mono g _ hh rfl ?_ fun k hk => hk)
            intro k hk
            show k ∈ akeys (dealHands shuffled 0 g.players)
            rw [akeys_dealHands]
            exact hk
      · exact Or.inl hh
  | endRound pid =>
      show hostOk (endGame isOpen g pid).1 ∨ (endGame isOpen g pid).1.players = []
      unfold endGame
      split
      · refine Or.inl (hostOk_mono g _ hh rfl ?_ fun k hk => hk)
        intro k hk
        show k ∈ akeys (clearDiedCards g.diedPlayers g.players)
        rw [akeys_clearDiedCards]
        exact hk
      · exact Or.inl hh
  | die pid =>
      show hostOk (playerDie isOpen g pid).1 ∨ (playerDie isOpen g pid).1.players = []
      unfold playerDie
      cases hp : aget g.players pid with
      | none => exact Or.inl hh
      | some info =>
          simp only
          refine Or.inl (hostOk_mono g _ hh rfl ?_ fun k hk => hk)
          intro k hk
          exact mem_akeys_aset_of_mem _ _ _ _ hk
  | expire pid due =>
      show hostOk (timerFire isOpen g pid due).1 ∨ (timerFire isOpen g pid due).1.players = []
      cases hd : ahas g.disconnectedPlayers pid with
      | true =>
          simp only [timerFire, hd, if_true]
          refine Or.inl (hostOk_mono g _ hh rfl (fun k hk => hk) ?_)
          intro k hk
          rw [akeys_adel] at hk
          exact List.erase_subset _ _ hk
      | false =>
          simp only [timerFire, hd]
          exact Or.inl hh

/-- C2, amended.  The stated invariant fails once the host's departure leaves
`players` empty (see the counterexample); what the code guarantees is the
step-local preservation: from any well-formed state whose host is a present
player, any single operation either preserves that property or empties
`players` (leaving the host field dangling). -/
theorem hostId_present_unless_emptied (isOpen : ConnId → Bool) (op : SOp) (g : CardGame)
    (hwf : wfB g = true) (hh : hostOkB g = true) :
    hostOkB (step isOpen g op) = true ∨ (step isOpen g op).players = [] := by
  rcases hostOk_step isOpen op g ((wfB_iff g).mp hwf) ((hostOkB_iff g).mp hh) with h | h
  · exact Or.inl ((hostOkB_iff _).mpr h)
  · exact Or.inr h

/-- Witness for the amended C2: Alice leaving her two-player room mid-game
keeps the host property (Bob is promoted) or empties the room. -/
theorem hostId_present_unless_emptied_witness :
    hostOkB (step allOpen gAliceBob (SOp.leave 0 "A")) = true ∨
      (step allOpen gAliceBob (SOp.leave 0 "A")).players = [] :=
  hostId_present_unless_emptied allOpen (SOp.leave 0 "A") gAliceBob (by decide) (by decide)

/-- C1, amended.  Every snapshot copy delivered by `broadcastGameState` goes
to a present player's open connection and carries the one shared payload in
which the `players` array lists, for every present player, that player's
`cards` field — so each recipient receives every player's hand, their own
included, not only their own. -/
theorem snapshot_contains_all_hands (isOpen : ConnId → Bool) (g : CardGame)
    (pid : PlayerId) (info : PlayerInfo)
    (hmem : (pid, info) ∈ g.players) (hopen : isOpen info.ws = true) :
    (info.ws, Msg.gameState (gamePayload g) (decide (g.hostId = some pid))
      (!smem g.firstGamePlayers pid) (smem g.diedPlayers pid)) ∈
        broadcastGameState isOpen g ∧
    ∀ q ∈ g.players, ∃ e ∈ (gamePayload g).players, e.id = q.1 ∧ e.cards = q.2.cards := by
  constructor
  · rw [broadcastGameState, List.mem_filterMap]
    refine ⟨(pid, info), hmem, ?_⟩
    simp [hopen]
  · intro q hq
    refine ⟨playerEntry g q.1 q.2, ?_, rfl, rfl⟩
    exact List.mem_map_of_mem _ hq

/-- Witness for the amended C1: Alice's connection receives the full payload
copy in the concrete two-player room. -/
theorem snapshot_contains_all_hands_witness :
    ((1 : ConnId), Msg.gameState (gamePayload gAliceBob)
      (decide (gAliceBob.hostId = some "A")) (!smem gAliceBob.firstGamePlayers "A")
      (smem gAliceBob.diedPlayers "A")) ∈ broadcastGameState allOpen gAliceBob :=
  (snapshot_contains_all_hands allOpen gAliceBob "A" ⟨1, "Alice", some []⟩
    (by decide) rfl).1

theorem smem_iff_mem (s : List PlayerId) (x : PlayerId) : smem s x = true ↔ x ∈ s := by
  simp [smem, List.any_eq_true]

theorem aget_clearDiedCards_of_not_mem (died : List PlayerId)
    (ps : List (PlayerId × PlayerInfo)) (q : PlayerId) (h : q ∉ died) :
    aget (clearDiedCards died ps) q = aget ps q := by
  induction died generalizing ps with
  | nil => rfl
  | cons p rest ih =>
      have hne : q ≠ p := fun he => h (he ▸ List.mem_cons_self p rest)
      have hrest : q ∉ rest := fun hm => h (List.mem_cons_of_mem _ hm)
      show aget (clearDiedCards rest _) q = _
      rw [ih _ hrest]
      cases hp : aget ps p with
      | none => simp [hp]
      | some info =>
          simp only [hp]
          exact aget_aset_of_ne _ _ hne

theorem aget_clearDiedCards_of_mem (died : List PlayerId)
    (ps : List (PlayerId × PlayerInfo)) (q : PlayerId) (h : q ∈ died) :
    aget (clearDiedCards died ps) q =
      (aget ps q).map fun i => { i with cards := none } := by
  induction died generalizing ps with
  | nil => cases h
  | cons p rest ih =>
      show aget (clearDiedCards rest _) q = _
      by_cases hq : q ∈ rest
      · rw [ih _ hq]
        by_cases hpq : q = p
        · subst hpq
          cases hp : aget ps q with
          | none => simp [hp]
          | some info =>
              simp only [hp]
              rw [aget_aset_self]
              rfl
        · cases hp : aget ps p with
          | none => simp [hp]
          | some info =>
              simp only [hp]
              rw [aget_aset_of_ne _ _ hpq]
      · have hpq : q = p := by
          rcases List.mem_cons.mp h with h1 | h1
          · exact h1
          · exact absurd h1 hq
        subst hpq
        rw [aget_clearDiedCards_of_not_mem rest _ q hq]
        cases hp : aget ps q with
        | none => simp [hp]
        | some info =>
            simp only [hp]
            rw [aget_aset_self]
            rfl

/-- C3, amended.  The Lobby-phase claim fails after `end` (see the
counterexample): `endGame` returns to the Lobby and clears `diedThisRound`,
but it nulls only the hands of players who died this round; every other
present player's hand is left exactly as dealt, as a round-end reveal, until
the next start redistributes. -/
theorem endGame_clears_only_died_hands (isOpen : ConnId → Bool) (g : CardGame)
    (pid : PlayerId) (hhost : g.hostId = some pid) :
    (endGame isOpen g pid).1.gameStarted = false ∧
    (endGame isOpen g pid).1.diedPlayers = [] ∧
    (∀ q, q ∈ g.diedPlayers →
      aget (endGame isOpen g pid).1.players q =
        (aget g.players q).map fun i => { i with cards := none }) ∧
    (∀ q, q ∉ g.diedPlayers →
      aget (endGame isOpen g pid).1.players q = aget g.players q) := by
  simp only [endGame, if_pos hhost]
  refine ⟨by trivial, by trivial, ?_, ?_⟩
  · intro q hq
    exact aget_clearDiedCards_of_mem _ _ _ hq
  · intro q hq
    exact aget_clearDiedCards_of_not_mem _ _ _ hq

/-- Witness for the amended C3: ending the concrete started game leaves
Alice's (non-died) stored hand untouched. -/
theorem endGame_clears_only_died_hands_witness :
    aget (endGame allOpen (run allOpen gAliceBob [SOp.start "A" deckCards]) "A").1.players "A" =
      aget (run allOpen gAliceBob [SOp.start "A" deckCards]).players "A" :=
  (endGame_clears_only_died_hands allOpen (run allOpen gAliceBob [SOp.start "A" deckCards])
    "A" (by decide)).2.2.2 "A" (by decide)

/-- C4, amended.  Each disconnect of a present player arms a one-shot
300000 ms timer; a firing timer deletes the identity and broadcasts iff the
identity is currently in `disconnected`, and is a pure no-op on session state
(beyond leaving the timer queue) when the identity is absent.  The guard is
membership only — not the generation of the disconnect — so (per the
counterexample) an earlier timer does evict state stored by a later
disconnect of the same identity after an intervening reconnect. -/
theorem grace_timer_guarded_by_membership (isOpen : ConnId → Bool) (now due : Nat)
    (g : CardGame) (pid : PlayerId) (info : PlayerInfo)
    (hp : aget g.players pid = some info) :
    reconnectTimeout = 300000 ∧
    (handleDisconnect isOpen now g pid).1.pendingTimers =
      g.pendingTimers ++ [(pid, now + reconnectTimeout)] ∧
    (ahas g.disconnectedPlayers pid = false →
      (timerFire isOpen g pid due).1 =
        { g with pendingTimers := removeTimer g.pendingTimers (pid, due) } ∧
      (timerFire isOpen g pid due).2 = []) ∧
    (ahas g.disconnectedPlayers pid = true →
      (timerFire isOpen g pid due).1.disconnectedPlayers = adel g.disconnectedPlayers pid ∧
      (timerFire isOpen g pid due).2 =
        broadcastGameState isOpen (timerFire isOpen g pid due).1) := by
  refine ⟨rfl, ?_, ?_, ?_⟩
  · simp [handleDisconnect, hp]
  · intro hd
    constructor <;> simp [timerFire, hd]
  · intro hd
    constructor <;> simp [timerFire, hd]

/-- Witness for the amended C4: disconnecting Alice at instant 0 arms a timer
due at 300000. -/
theorem grace_timer_guarded_by_membership_witness :
    (handleDisconnect allOpen 0 gAliceBob "A").1.pendingTimers =
      gAliceBob.pendingTimers ++ [("A", 0 + reconnectTimeout)] :=
  (grace_timer_guarded_by_membership allOpen 0 0 gAliceBob "A" ⟨1, "Alice", some []⟩
    (by decide)).2.1

/-- C9, amended.  The `leaveRoom` handler does destroy the session exactly
when the departing operation leaves both membership maps empty, and keeps it
(updated) otherwise; but grace-period expiry never removes the room from the
registry — even when it empties the session (see the counterexample), the
code remains registered. -/
theorem room_destroyed_on_leave_iff_empty (isOpen : ConnId → Bool) (now due : Nat)
    (rooms : Registry) (code : String) (pid : PlayerId) (ws : ConnId) (g : CardGame)
    (hnd : (akeys rooms).Nodup) (hr : aget rooms code = some g) :
    ((leaveRoom now g pid).1.players.length = 0 ∧
        (leaveRoom now g pid).1.disconnectedPlayers.length = 0 →
      aget (leaveRoomHandler isOpen now rooms code pid ws).1 code = none) ∧
    (¬((leaveRoom now g pid).1.players.length = 0 ∧
        (leaveRoom now g pid).1.disconnectedPlayers.length = 0) →
      aget (leaveRoomHandler isOpen now rooms code pid ws).1 code =
        some (leaveRoom now g pid).1) ∧
    (aget (expireHandler isOpen rooms code pid due) code).isSome = true := by
  refine ⟨?_, ?_, ?_⟩
  · rintro ⟨h1, h2⟩
    simp only [leaveRoomHandler, hr]
    rw [if_pos (by simp [h1, h2])]
    exact aget_adel_self rooms code hnd
  · intro hne
    simp only [leaveRoomHandler, hr]
    rw [if_neg (by simpa using fun h1 h2 => hne ⟨h1, h2⟩)]
    exact aget_aset_self _ _ _
  · simp only [expireHandler, hr]
    simp [aget_aset_self]

/-- Witness for the amended C9: Bob leaving the concrete two-player Lobby room
keeps the room registered with Bob removed. -/
theorem room_destroyed_on_leave_iff_empty_witness :
    aget (leaveRoomHandler allOpen 0 [("1234", gAliceBob)] "1234" "B" 2).1 "1234" =
      some (leaveRoom 0 gAliceBob "B").1 :=
  (room_destroyed_on_leave_iff_empty allOpen 0 0 [("1234", gAliceBob)] "1234" "B" 2 gAliceBob
    (by decide) (by decide)).2.1 (by decide)

/-- C9, counterexample.  Alice creates room "1234" and her socket closes; when
the grace timer fires and evicts her, both membership maps become empty, but
the timer callback never touches the registry: the room code remains
registered with an empty session, refuting "a Session is destroyed exactly
when both maps become empty". -/
theorem expiry_leaves_empty_room_registered :
    registeredAndEmpty regAfterExpiry "1234" = true := by
  decide

end Seotda
